import Mathlib

set_option maxHeartbeats 1000000

/-!
Verification development for the smartlogic-notifier service.

The definitions below are shallow embeddings of the Go sources:
the Smartlogic upstream client (smartlogic/client.go), the Kafka message
framing (kafka/ftmsg.go), the notifier service (notifier/service.go) and
the HTTP handlers with the notification coalescer (notifier/handlers.go).
Machine integers never overflow in the modelled code paths, so counters are
Nat and times are Int nanoseconds since the Unix epoch, mirroring the values
held by the Go time package.
-/

deriving instance DecidableEq for Except

namespace SmartlogicNotifier

/-! ## Smartlogic client: makeRequest with 401 recovery (smartlogic/client.go) -/

/-- Outcome of one httpClient.Do call: either a transport error (no response
received) or a response with a status code and a body. -/
inductive DoResult where
  | transportErr (msg : String)
  | resp (status : Nat) (body : String)
  deriving Repr, DecidableEq

/-- Errors surfaced by makeRequest. -/
inductive ReqError where
  | authExhausted
  | transport (msg : String)
  | noResponse
  deriving Repr, DecidableEq

/-- The mutable fields of smartlogic.Client touched by makeRequest and
GenerateToken. -/
structure ClientState where
  accessToken : String
  accessFailureCount : Nat
  deriving Repr, DecidableEq

/-- const maxAccessFailureCount = 5 in smartlogic/client.go. -/
def maxAccessFailureCount : Nat := 5

/-- GenerateToken: on success the access token is replaced; on error the
token is left unchanged (the caller merely logs the error). The outcome of
the token endpoint round trip is supplied as an argument. -/
def generateToken (st : ClientState) (r : Except String String) : ClientState :=
  match r with
  | .ok tok => { st with accessToken := tok }
  | .error _ => st

/-- Result of makeRequest together with instrumentation: the state left in
the client, the number of httpClient.Do calls issued for the original
request, and the number of GenerateToken attempts. -/
structure MakeRequestOutcome where
  result : Except ReqError (Nat × String)
  finalState : ClientState
  upstreamRequests : Nat
  tokenRefreshes : Nat
  deriving Repr, DecidableEq

/-- One 401 recovery step: the failure counter is incremented and a token
refresh is attempted whose outcome (head of the refresh script, if any)
updates the token; a refresh error is only logged, so it leaves the token
as it was. -/
def refreshStep (st : ClientState) (refreshScript : List (Except String String)) : ClientState :=
  match refreshScript with
  | [] => { st with accessFailureCount := st.accessFailureCount + 1 }
  | r :: _ => generateToken { st with accessFailureCount := st.accessFailureCount + 1 } r

/-- makeRequest from smartlogic/client.go. The successive outcomes of
httpClient.Do for this URL are given by the script; the outcomes of the
token endpoint for successive refresh attempts by refreshScript. A 401
closes the response, increments accessFailureCount, attempts one token
refresh (its error does not short-circuit) and re-issues the request; once
accessFailureCount has reached the cap the call fails hard without any
upstream traffic; any received non-401 response resets the counter to 0. -/
def makeRequest (st : ClientState) (script : List DoResult)
    (refreshScript : List (Except String String)) : MakeRequestOutcome :=
  if st.accessFailureCount ≥ maxAccessFailureCount then
    ⟨.error .authExhausted, st, 0, 0⟩
  else
    match script with
    | [] => ⟨.error .noResponse, st, 0, 0⟩
    | .transportErr e :: _ => ⟨.error (.transport e), st, 1, 0⟩
    | .resp status body :: rest =>
      if status = 401 then
        let out := makeRequest (refreshStep st refreshScript) rest refreshScript.tail
        ⟨out.result, out.finalState, out.upstreamRequests + 1, out.tokenRefreshes + 1⟩
      else
        ⟨.ok (status, body), { st with accessFailureCount := 0 }, 1, 0⟩

/-- generateToken never touches the failure counter. -/
lemma generateToken_failureCount (st : ClientState) (r : Except String String) :
    (generateToken st r).accessFailureCount = st.accessFailureCount := by
  cases r <;> rfl

/-- A 401 recovery step advances the failure counter by exactly one. -/
lemma refreshStep_failureCount (st : ClientState) (rs : List (Except String String)) :
    (refreshStep st rs).accessFailureCount = st.accessFailureCount + 1 := by
  cases rs with
  | nil => rfl
  | cons r _ => simp [refreshStep, generateToken_failureCount]

/-- At or above the cap, makeRequest fails hard, makes no upstream call,
attempts no refresh, and leaves the state unchanged. -/
lemma makeRequest_at_cap (st : ClientState) (script : List DoResult)
    (rs : List (Except String String)) (h : st.accessFailureCount ≥ maxAccessFailureCount) :
    makeRequest st script rs = ⟨.error .authExhausted, st, 0, 0⟩ := by
  unfold makeRequest
  simp [h]

/-- Below the cap, makeRequest with an exhausted response script reports the
out-of-script marker (this case never arises in the claims). -/
lemma makeRequest_nil (st : ClientState) (rs : List (Except String String))
    (hlt : st.accessFailureCount < maxAccessFailureCount) :
    makeRequest st [] rs = ⟨.error .noResponse, st, 0, 0⟩ := by
  unfold makeRequest
  simp [Nat.not_le.mpr hlt]

/-- Below the cap, a received non-401 response is returned as is and resets
the failure counter to zero. -/
lemma makeRequest_non401 (st : ClientState) (s : Nat) (b : String) (rest : List DoResult)
    (rs : List (Except String String)) (hlt : st.accessFailureCount < maxAccessFailureCount)
    (hs : s ≠ 401) :
    makeRequest st (.resp s b :: rest) rs =
      ⟨.ok (s, b), { st with accessFailureCount := 0 }, 1, 0⟩ := by
  unfold makeRequest
  simp [Nat.not_le.mpr hlt, hs]

/-- Below the cap, a transport error propagates unchanged: one upstream
attempt, no refresh, and the client state (counter included) untouched. -/
lemma makeRequest_transport (st : ClientState) (e : String) (rest : List DoResult)
    (rs : List (Except String String)) (hlt : st.accessFailureCount < maxAccessFailureCount) :
    makeRequest st (.transportErr e :: rest) rs = ⟨.error (.transport e), st, 1, 0⟩ := by
  unfold makeRequest
  simp [Nat.not_le.mpr hlt]

/-- Below the cap, a 401 response performs exactly one refresh step and one
re-issue of the request. -/
lemma makeRequest_401_step (st : ClientState) (b : String) (rest : List DoResult)
    (rs : List (Except String String)) (hlt : st.accessFailureCount < maxAccessFailureCount) :
    makeRequest st (.resp 401 b :: rest) rs =
      ⟨(makeRequest (refreshStep st rs) rest rs.tail).result,
        (makeRequest (refreshStep st rs) rest rs.tail).finalState,
        (makeRequest (refreshStep st rs) rest rs.tail).upstreamRequests + 1,
        (makeRequest (refreshStep st rs) rest rs.tail).tokenRefreshes + 1⟩ := by
  conv_lhs => unfold makeRequest
  simp [Nat.not_le.mpr hlt]

/-- Running makeRequest through a block of k consecutive 401 responses, all
below the cap: the loop re-enters with the counter advanced by k, having
issued k upstream requests and k refresh attempts. -/
lemma makeRequest_after_401s (b : String) :
    ∀ (k : Nat) (st : ClientState) (script : List DoResult) (rs : List (Except String String)),
      st.accessFailureCount + k ≤ maxAccessFailureCount →
      ∃ st2 : ClientState, st2.accessFailureCount = st.accessFailureCount + k ∧
        makeRequest st (List.replicate k (.resp 401 b) ++ script) rs =
          { result := (makeRequest st2 script (rs.drop k)).result
            finalState := (makeRequest st2 script (rs.drop k)).finalState
            upstreamRequests := (makeRequest st2 script (rs.drop k)).upstreamRequests + k
            tokenRefreshes := (makeRequest st2 script (rs.drop k)).tokenRefreshes + k } := by
  intro k
  induction k with
  | zero =>
    intro st script rs _
    exact ⟨st, rfl, rfl⟩
  | succ k ih =>
    intro st script rs h
    have hlt : st.accessFailureCount < maxAccessFailureCount := by omega
    rw [List.replicate_succ, List.cons_append, makeRequest_401_step st b _ rs hlt]
    obtain ⟨st2, hfc, heq⟩ := ih (refreshStep st rs) script rs.tail
      (by rw [refreshStep_failureCount]; omega)
    rw [refreshStep_failureCount] at hfc
    have hdrop : rs.tail.drop k = rs.drop (k + 1) := by
      rw [← List.drop_one, List.drop_drop, Nat.add_comm]
    refine ⟨st2, by omega, ?_⟩
    rw [heq, hdrop]
    rfl

/-- The outcome of makeRequest is independent of the refresh outcomes and of
the access token: two runs whose states agree on the failure counter agree on
the result, the final counter, and both instrumentation counts. -/
lemma makeRequest_refresh_independent :
    ∀ (script : List DoResult) (st st2 : ClientState)
      (rs rs2 : List (Except String String)),
      st.accessFailureCount = st2.accessFailureCount →
      (makeRequest st script rs).result = (makeRequest st2 script rs2).result ∧
      (makeRequest st script rs).finalState.accessFailureCount =
        (makeRequest st2 script rs2).finalState.accessFailureCount ∧
      (makeRequest st script rs).upstreamRequests = (makeRequest st2 script rs2).upstreamRequests ∧
      (makeRequest st script rs).tokenRefreshes = (makeRequest st2 script rs2).tokenRefreshes := by
  intro script
  induction script with
  | nil =>
    intro st st2 rs rs2 hfc
    by_cases h : st.accessFailureCount ≥ maxAccessFailureCount
    · rw [makeRequest_at_cap st _ _ h, makeRequest_at_cap st2 _ _ (hfc ▸ h)]
      exact ⟨rfl, hfc, rfl, rfl⟩
    · rw [makeRequest_nil st _ (by omega), makeRequest_nil st2 _ (by omega)]
      exact ⟨rfl, hfc, rfl, rfl⟩
  | cons d rest ih =>
    intro st st2 rs rs2 hfc
    by_cases h : st.accessFailureCount ≥ maxAccessFailureCount
    · rw [makeRequest_at_cap st _ _ h, makeRequest_at_cap st2 _ _ (hfc ▸ h)]
      exact ⟨rfl, hfc, rfl, rfl⟩
    · have hlt : st.accessFailureCount < maxAccessFailureCount := by omega
      have hlt2 : st2.accessFailureCount < maxAccessFailureCount := by omega
      cases d with
      | transportErr e =>
        rw [makeRequest_transport st _ _ _ hlt, makeRequest_transport st2 _ _ _ hlt2]
        exact ⟨rfl, hfc, rfl, rfl⟩
      | resp s b =>
        by_cases hs : s = 401
        · subst hs
          rw [makeRequest_401_step st b _ rs hlt, makeRequest_401_step st2 b _ rs2 hlt2]
          have := ih (refreshStep st rs) (refreshStep st2 rs2) rs.tail rs2.tail
            (by rw [refreshStep_failureCount, refreshStep_failureCount, hfc])
          exact ⟨this.1, this.2.1, by rw [this.2.2.1], by rw [this.2.2.2]⟩
        · rw [makeRequest_non401 st _ _ _ _ hlt hs, makeRequest_non401 st2 _ _ _ _ hlt2 hs]
          exact ⟨rfl, rfl, rfl, rfl⟩

/-- Claim C3: for requests through the upstream client, each 401 below the
cap increments consecutiveAuthFailures by one, triggers exactly one token
refresh attempt (whose own failure does not short-circuit) and exactly one
re-issue of the original request; once the counter has reached 5 every call
fails immediately with the hard error and without upstream traffic, leaving
the state unchanged (so this persists until restart); and any received
non-401 response resets the counter to zero. -/
theorem makeRequest_auth_recovery_c3 :
    (∀ (st : ClientState) (script : List DoResult) (rs : List (Except String String)),
      st.accessFailureCount ≥ maxAccessFailureCount →
      makeRequest st script rs = ⟨.error .authExhausted, st, 0, 0⟩) ∧
    (∀ (st : ClientState) (s : Nat) (b : String) (rest : List DoResult)
        (rs : List (Except String String)),
      st.accessFailureCount < maxAccessFailureCount → s ≠ 401 →
      makeRequest st (.resp s b :: rest) rs =
        ⟨.ok (s, b), { st with accessFailureCount := 0 }, 1, 0⟩) ∧
    (∀ (k : Nat) (st : ClientState) (b b2 : String) (s : Nat) (rest : List DoResult)
        (rs : List (Except String String)),
      st.accessFailureCount + k < maxAccessFailureCount → s ≠ 401 →
      (makeRequest st (List.replicate k (.resp 401 b) ++ .resp s b2 :: rest) rs).result =
          .ok (s, b2) ∧
      (makeRequest st (List.replicate k (.resp 401 b) ++ .resp s b2 :: rest)
          rs).finalState.accessFailureCount = 0 ∧
      (makeRequest st (List.replicate k (.resp 401 b) ++ .resp s b2 :: rest)
          rs).upstreamRequests = k + 1 ∧
      (makeRequest st (List.replicate k (.resp 401 b) ++ .resp s b2 :: rest)
          rs).tokenRefreshes = k) ∧
    (∀ (k : Nat) (st : ClientState) (b : String) (script : List DoResult)
        (rs : List (Except String String)),
      st.accessFailureCount + k = maxAccessFailureCount →
      (makeRequest st (List.replicate k (.resp 401 b) ++ script) rs).result =
          .error .authExhausted ∧
      (makeRequest st (List.replicate k (.resp 401 b) ++ script)
          rs).finalState.accessFailureCount = maxAccessFailureCount ∧
      (makeRequest st (List.replicate k (.resp 401 b) ++ script) rs).upstreamRequests = k ∧
      (makeRequest st (List.replicate k (.resp 401 b) ++ script) rs).tokenRefreshes = k) ∧
    (∀ (script : List DoResult) (st st2 : ClientState) (rs rs2 : List (Except String String)),
      st.accessFailureCount = st2.accessFailureCount →
      (makeRequest st script rs).result = (makeRequest st2 script rs2).result ∧
      (makeRequest st script rs).upstreamRequests = (makeRequest st2 script rs2).upstreamRequests) := by
  refine ⟨makeRequest_at_cap, makeRequest_non401, ?_, ?_, ?_⟩
  · intro k st b b2 s rest rs h hs
    obtain ⟨st2, hfc, heq⟩ := makeRequest_after_401s b k st (.resp s b2 :: rest) rs (by omega)
    have hlt2 : st2.accessFailureCount < maxAccessFailureCount := by omega
    rw [heq, makeRequest_non401 st2 s b2 rest (rs.drop k) hlt2 hs]
    refine ⟨rfl, rfl, ?_, ?_⟩
    · show 1 + k = k + 1
      omega
    · show 0 + k = k
      omega
  · intro k st b script rs h
    obtain ⟨st2, hfc, heq⟩ := makeRequest_after_401s b k st script rs (by omega)
    have hcap : st2.accessFailureCount ≥ maxAccessFailureCount := by omega
    rw [heq, makeRequest_at_cap st2 script (rs.drop k) hcap]
    refine ⟨rfl, ?_, ?_, ?_⟩
    · show st2.accessFailureCount = maxAccessFailureCount
      omega
    · show 0 + k = k
      omega
    · show 0 + k = k
      omega
  · intro script st st2 rs rs2 hfc
    have := makeRequest_refresh_independent script st st2 rs rs2 hfc
    exact ⟨this.1, this.2.2.1⟩

/-- Witness for claim C3 at concrete inputs: starting from a fresh client,
two 401 responses followed by a 200 yield the 200, a reset counter, three
upstream attempts and two refreshes; a client at the cap fails hard. -/
theorem makeRequest_auth_recovery_c3_witness :
    ((⟨"tok", 0⟩ : ClientState).accessFailureCount + 2 < maxAccessFailureCount ∧ (200 ≠ 401) ∧
      (makeRequest ⟨"tok", 0⟩
          (List.replicate 2 (.resp 401 "no") ++ .resp 200 "ok" :: []) [.ok "t2"]).result =
        .ok (200, "ok") ∧
      (makeRequest ⟨"tok", 0⟩
          (List.replicate 2 (.resp 401 "no") ++ .resp 200 "ok" :: [])
          [.ok "t2"]).finalState.accessFailureCount = 0 ∧
      (makeRequest ⟨"tok", 0⟩
          (List.replicate 2 (.resp 401 "no") ++ .resp 200 "ok" :: [])
          [.ok "t2"]).upstreamRequests = 2 + 1 ∧
      (makeRequest ⟨"tok", 0⟩
          (List.replicate 2 (.resp 401 "no") ++ .resp 200 "ok" :: [])
          [.ok "t2"]).tokenRefreshes = 2) ∧
    ((⟨"tok", 5⟩ : ClientState).accessFailureCount ≥ maxAccessFailureCount ∧
      makeRequest ⟨"tok", 5⟩ [.resp 200 "ok"] [] =
        ⟨.error .authExhausted, ⟨"tok", 5⟩, 0, 0⟩) := by
  constructor
  · exact ⟨by decide, by decide,
      makeRequest_auth_recovery_c3.2.2.1 2 ⟨"tok", 0⟩ "no" "ok" 200 [] [.ok "t2"]
        (by decide) (by decide)⟩
  · exact ⟨by decide,
      makeRequest_auth_recovery_c3.1 ⟨"tok", 5⟩ [.resp 200 "ok"] [] (by decide)⟩

/-- Claim C10: a transport error (no response received) propagates and leaves
consecutiveAuthFailures unchanged; interleaved after k 401s it neither
advances nor clears the counter, which stays at its pre-error value k above
the starting point. -/
theorem makeRequest_transport_counter_c10 :
    (∀ (st : ClientState) (e : String) (rest : List DoResult)
        (rs : List (Except String String)),
      st.accessFailureCount < maxAccessFailureCount →
      makeRequest st (.transportErr e :: rest) rs = ⟨.error (.transport e), st, 1, 0⟩) ∧
    (∀ (k : Nat) (st : ClientState) (b e : String) (rest : List DoResult)
        (rs : List (Except String String)),
      st.accessFailureCount + k < maxAccessFailureCount →
      (makeRequest st (List.replicate k (.resp 401 b) ++ .transportErr e :: rest) rs).result =
          .error (.transport e) ∧
      (makeRequest st (List.replicate k (.resp 401 b) ++ .transportErr e :: rest)
          rs).finalState.accessFailureCount = st.accessFailureCount + k ∧
      (makeRequest st (List.replicate k (.resp 401 b) ++ .transportErr e :: rest)
          rs).upstreamRequests = k + 1 ∧
      (makeRequest st (List.replicate k (.resp 401 b) ++ .transportErr e :: rest)
          rs).tokenRefreshes = k) := by
  refine ⟨makeRequest_transport, ?_⟩
  intro k st b e rest rs h
  obtain ⟨st2, hfc, heq⟩ := makeRequest_after_401s b k st (.transportErr e :: rest) rs (by omega)
  have hlt2 : st2.accessFailureCount < maxAccessFailureCount := by omega
  rw [heq, makeRequest_transport st2 e rest (rs.drop k) hlt2]
  refine ⟨rfl, hfc, ?_, ?_⟩
  · show 1 + k = k + 1
    omega
  · show 0 + k = k
    omega

/-- Witness for claim C10: one 401 then a transport failure leaves the
counter at 1 — neither advanced further nor reset. -/
theorem makeRequest_transport_counter_c10_witness :
    (⟨"tok", 0⟩ : ClientState).accessFailureCount + 1 < maxAccessFailureCount ∧
    (makeRequest ⟨"tok", 0⟩
        (List.replicate 1 (.resp 401 "no") ++ .transportErr "conn reset" :: []) []).result =
      .error (.transport "conn reset") ∧
    (makeRequest ⟨"tok", 0⟩
        (List.replicate 1 (.resp 401 "no") ++ .transportErr "conn reset" :: [])
        []).finalState.accessFailureCount = (⟨"tok", 0⟩ : ClientState).accessFailureCount + 1 := by
  refine ⟨by decide, ?_, ?_⟩
  · exact (makeRequest_transport_counter_c10.2 1 ⟨"tok", 0⟩ "no" "conn reset" [] []
      (by decide)).1
  · exact (makeRequest_transport_counter_c10.2 1 ⟨"tok", 0⟩ "no" "conn reset" [] []
      (by decide)).2.1

/-! ## Notification coalescer: processNotifyRequests (notifier/handlers.go) -/

/-- A buffered webhook notification request: the adjusted change timestamp in
nanoseconds and the inbound transaction id. -/
structure NotificationRequest where
  notifySince : Int
  transactionID : String
  deriving Repr, DecidableEq

/-- maxTimeValue from notifier/handlers.go: time.Unix(1 shl 63 - 62135596801,
999999999) expressed in nanoseconds. -/
def maxTimeValue : Int := (2 ^ 63 - 62135596801) * 1000000000 + 999999999

/-- The body of the drain loop: the candidate is replaced exactly when the
incoming request is strictly earlier (n.notifySince.After(req.notifySince)). -/
def drainStep (n req : NotificationRequest) : NotificationRequest :=
  if req.notifySince < n.notifySince then req else n

/-- Draining the buffer: fold the drain step over the buffered requests in
arrival order, starting from the maxTimeValue sentinel. -/
def drainSelect (reqs : List NotificationRequest) : NotificationRequest :=
  reqs.foldl drainStep ⟨maxTimeValue, ""⟩

/-- One tick of processNotifyRequests: an empty buffer is skipped; otherwise
the buffer is drained and Notify is invoked exactly once with the selected
request (the returned value). -/
def processTick (buffered : List NotificationRequest) : Option NotificationRequest :=
  if buffered.isEmpty then none else some (drainSelect buffered)

/-- Characterization of the drain fold: either no buffered request improves
on the accumulator (which is then returned), or the result is the first
request attaining the minimum: strictly below the accumulator and every
earlier request, and at or below every later one. -/
lemma drain_foldl_spec :
    ∀ (l : List NotificationRequest) (acc : NotificationRequest),
      (l.foldl drainStep acc = acc ∧ ∀ r ∈ l, acc.notifySince ≤ r.notifySince) ∨
      (∃ pre post, l = pre ++ (l.foldl drainStep acc) :: post ∧
        (l.foldl drainStep acc).notifySince < acc.notifySince ∧
        (∀ r ∈ pre, (l.foldl drainStep acc).notifySince < r.notifySince) ∧
        (∀ r ∈ post, (l.foldl drainStep acc).notifySince ≤ r.notifySince)) := by
  intro l
  induction l with
  | nil =>
    intro acc
    exact .inl ⟨rfl, by simp⟩
  | cons r rs ih =>
    intro acc
    by_cases hlt : r.notifySince < acc.notifySince
    · have hstep : drainStep acc r = r := by simp [drainStep, hlt]
      have hfold : (r :: rs).foldl drainStep acc = rs.foldl drainStep r := by
        simp [List.foldl_cons, hstep]
      rcases ih r with ⟨hs, hmin⟩ | ⟨pre, post, heq, hlt2, hpre, hpost⟩
      · refine .inr ⟨[], rs, ?_, ?_, by simp, ?_⟩
        · simp [hfold, hs]
        · rw [hfold, hs]
          exact hlt
        · intro x hx
          rw [hfold, hs]
          exact hmin x hx
      · refine .inr ⟨r :: pre, post, ?_, ?_, ?_, ?_⟩
        · rw [hfold, List.cons_append, ← heq]
        · rw [hfold]
          exact lt_trans hlt2 hlt
        · intro x hx
          rw [hfold]
          rcases List.mem_cons.mp hx with hx | hx
          · exact hx ▸ hlt2
          · exact hpre x hx
        · intro x hx
          rw [hfold]
          exact hpost x hx
    · have hle : acc.notifySince ≤ r.notifySince := not_lt.mp hlt
      have hstep : drainStep acc r = acc := by simp [drainStep, hlt]
      have hfold : (r :: rs).foldl drainStep acc = rs.foldl drainStep acc := by
        simp [List.foldl_cons, hstep]
      rcases ih acc with ⟨hs, hmin⟩ | ⟨pre, post, heq, hlt2, hpre, hpost⟩
      · refine .inl ⟨by rw [hfold, hs], ?_⟩
        intro x hx
        rcases List.mem_cons.mp hx with hx | hx
        · exact hx ▸ hle
        · exact hmin x hx
      · refine .inr ⟨r :: pre, post, ?_, ?_, ?_, ?_⟩
        · rw [hfold, List.cons_append, ← heq]
        · rw [hfold]
          exact hlt2
        · intro x hx
          rw [hfold]
          rcases List.mem_cons.mp hx with hx | hx
          · exact hx ▸ lt_of_lt_of_le hlt2 hle
          · exact hpre x hx
        · intro x hx
          rw [hfold]
          exact hpost x hx

/-- Claim C2: a tick with an empty buffer invokes nothing; a tick with a
non-empty buffer (all timestamps below the sentinel, as every request built
by the webhook handler is) drains it and invokes Notify exactly once, with
the request whose notifySince is minimal over the drained requests, ties
resolved to the first-seen request: every strictly earlier-seen request has a
strictly larger notifySince. -/
theorem processNotifyRequests_coalesce_c2 :
    processTick [] = none ∧
    (∀ reqs : List NotificationRequest, reqs ≠ [] →
      (∀ r ∈ reqs, r.notifySince < maxTimeValue) →
      ∃ pre post sel, processTick reqs = some sel ∧
        reqs = pre ++ sel :: post ∧
        (∀ r ∈ reqs, sel.notifySince ≤ r.notifySince) ∧
        (∀ r ∈ pre, sel.notifySince < r.notifySince)) := by
  refine ⟨rfl, ?_⟩
  intro reqs hne hbound
  have hproc : processTick reqs = some (drainSelect reqs) := by
    unfold processTick
    simp [List.isEmpty_iff, hne]
  rcases drain_foldl_spec reqs ⟨maxTimeValue, ""⟩ with ⟨_, hmin⟩ | ⟨pre, post, heq, _, hpre, hpost⟩
  · obtain ⟨r0, hr0⟩ := List.exists_mem_of_ne_nil reqs hne
    exact absurd (hmin r0 hr0) (not_le.mpr (hbound r0 hr0))
  · refine ⟨pre, post, drainSelect reqs, hproc, heq, ?_, hpre⟩
    intro x hx
    rw [heq] at hx
    rcases List.mem_append.mp hx with hx | hx
    · exact le_of_lt (hpre x hx)
    · rcases List.mem_cons.mp hx with hx | hx
      · exact hx ▸ le_refl _
      · exact hpost x hx

/-- Witness for claim C2: a three-request burst with a tie on the minimum;
the theorem applies and the selected request is the first-seen minimum. -/
theorem processNotifyRequests_coalesce_c2_witness :
    ([⟨5, "a"⟩, ⟨3, "b"⟩, ⟨3, "c"⟩] : List NotificationRequest) ≠ [] ∧
    (∀ r ∈ ([⟨5, "a"⟩, ⟨3, "b"⟩, ⟨3, "c"⟩] : List NotificationRequest),
      r.notifySince < maxTimeValue) ∧
    ∃ pre post sel,
      processTick [⟨5, "a"⟩, ⟨3, "b"⟩, ⟨3, "c"⟩] = some sel ∧
      ([⟨5, "a"⟩, ⟨3, "b"⟩, ⟨3, "c"⟩] : List NotificationRequest) = pre ++ sel :: post ∧
      (∀ r ∈ ([⟨5, "a"⟩, ⟨3, "b"⟩, ⟨3, "c"⟩] : List NotificationRequest),
        sel.notifySince ≤ r.notifySince) ∧
      (∀ r ∈ pre, sel.notifySince < r.notifySince) :=
  ⟨by decide, by decide,
    processNotifyRequests_coalesce_c2.2 [⟨5, "a"⟩, ⟨3, "b"⟩, ⟨3, "c"⟩] (by decide) (by decide)⟩

/-! ## Notifier service: ForceNotify and Notify (notifier/service.go) -/

/-- transactionidutils.TransactionIDHeader, the header carrying the
correlation id on published messages. -/
def transactionIDHeader : String := "X-Request-Id"

/-- kafka.FTMessage: a header mapping and a body. -/
structure FTMessage where
  headers : List (String × String)
  value : String
  deriving Repr, DecidableEq

/-- kafka.NewFTMessage as built by ForceNotify: a single correlation id
header and the raw concept bytes as body. -/
def mkMessage (tid concept : String) : FTMessage :=
  ⟨[(transactionIDHeader, tid)], concept⟩

/-- The correlation id carried by a message built by the service. -/
def msgTransactionID (m : FTMessage) : String :=
  ((m.headers.head?).map Prod.snd).getD ""

/-- The collaborators of the notifier service, as they behave during one
invocation: the Smartlogic fetch result per uuid, the Kafka send result per
message (none is success), and the fresh transaction id supply indexed by
how many ids have been generated so far. -/
structure ForceEnv where
  getConcept : String → Except String String
  sendMessage : FTMessage → Option String
  newTransactionID : Nat → String

/-- Insertion into the Go error map: replace the entry of an existing key,
append a new key at the end. -/
def mapInsert (m : List (String × String)) (k v : String) : List (String × String) :=
  if m.any (fun p => p.1 == k) then m.map (fun p => if p.1 == k then (k, v) else p)
  else m ++ [(k, v)]

/-- The loop-carried state of ForceNotify: how many fresh ids were minted,
the successfully published messages in order, and the error map. -/
structure LoopState where
  tidCounter : Nat
  published : List FTMessage
  errorMap : List (String × String)
  deriving Repr, DecidableEq

/-- One iteration of the ForceNotify loop over a concept uuid: a fetch error
is recorded and the loop continues; otherwise a fresh id is minted, the
message is built and sent, and a send error is likewise recorded without
aborting. -/
def forceNotifyStep (env : ForceEnv) (st : LoopState) (conceptUUID : String) : LoopState :=
  match env.getConcept conceptUUID with
  | .error e => { st with errorMap := mapInsert st.errorMap conceptUUID e }
  | .ok concept =>
    let message := mkMessage (env.newTransactionID st.tidCounter) concept
    match env.sendMessage message with
    | some e =>
      { st with
          tidCounter := st.tidCounter + 1
          errorMap := mapInsert st.errorMap conceptUUID e }
    | none =>
      { st with
          tidCounter := st.tidCounter + 1
          published := st.published ++ [message] }

/-- The ForceNotify loop over the uuid list, in list order. -/
def forceNotifyLoop (env : ForceEnv) (uuids : List String) (st : LoopState) : LoopState :=
  uuids.foldl (forceNotifyStep env) st

/-- Errors returned by the notifier service, carrying the data interpolated
into the corresponding Go error strings. -/
inductive SvcError where
  | listFetchFailed (msg : String)
  | listRetryFetchFailed (msg : String)
  | noChangedConcepts (lastChange : Int) (transactionID : String)
  | conceptIngestErrors (count : Nat)
  deriving Repr, DecidableEq

/-- The observable outcome of ForceNotify. -/
structure ForceOutcome where
  published : List FTMessage
  errorMap : List (String × String)
  result : Except SvcError Unit
  deriving Repr, DecidableEq

/-- ForceNotify from notifier/service.go: run the loop from an empty state;
if the error map is non-empty return the aggregated error naming the count
of entries, otherwise success. The inbound transaction id is only logged. -/
def forceNotify (env : ForceEnv) (uuids : List String) (transactionID : String) : ForceOutcome :=
  let st := forceNotifyLoop env uuids ⟨0, [], []⟩
  ⟨st.published, st.errorMap,
    if st.errorMap.isEmpty then .ok ()
    else .error (.conceptIngestErrors st.errorMap.length)⟩

/-- Notify from notifier/service.go: query the changed-concept list; when it
is empty, retry once (after a delay, not modelled); when both queries come
back empty, fail with the no-changed-concepts error carrying the since value
and the inbound transaction id; otherwise delegate to ForceNotify with the
non-empty list and the inbound id. The two query results are supplied as
the outcomes the upstream would give for the first and the second call. -/
def notify (env : ForceEnv) (firstList secondList : Except String (List String))
    (lastChange : Int) (transactionID : String) : ForceOutcome :=
  match firstList with
  | .error e => ⟨[], [], .error (.listFetchFailed e)⟩
  | .ok l1 =>
    if l1.isEmpty then
      match secondList with
      | .error e => ⟨[], [], .error (.listRetryFetchFailed e)⟩
      | .ok l2 =>
        if l2.isEmpty then ⟨[], [], .error (.noChangedConcepts lastChange transactionID)⟩
        else forceNotify env l2 transactionID
    else forceNotify env l1 transactionID

/-- When every fetch succeeds and every send succeeds, the loop appends one
message per uuid, in list order, minting consecutive fresh ids, and records
no error. -/
lemma forceNotifyLoop_ok (env : ForceEnv) (f : String → String) :
    ∀ (uuids : List String) (st : LoopState),
      (∀ u ∈ uuids, env.getConcept u = .ok (f u)) →
      (∀ m, env.sendMessage m = none) →
      forceNotifyLoop env uuids st =
        { tidCounter := st.tidCounter + uuids.length
          published := st.published ++ (uuids.enumFrom st.tidCounter).map
            (fun p => mkMessage (env.newTransactionID p.1) (f p.2))
          errorMap := st.errorMap } := by
  intro uuids
  induction uuids with
  | nil =>
    intro st _ _
    simp [forceNotifyLoop, List.enumFrom]
  | cons u us ih =>
    intro st hf hs
    have hstep : forceNotifyStep env st u =
        { st with
            tidCounter := st.tidCounter + 1
            published :=
              st.published ++ [mkMessage (env.newTransactionID st.tidCounter) (f u)] } := by
      simp [forceNotifyStep, hf u (by simp), hs]
    have hcons : forceNotifyLoop env (u :: us) st = forceNotifyLoop env us (forceNotifyStep env st u) := rfl
    rw [hcons, hstep, ih _ (fun x hx => hf x (List.mem_cons_of_mem _ hx)) hs]
    congr 1
    · simp
      omega
    · simp [List.enumFrom, List.append_assoc]

/-- Claim C1, batch behavior of ForceNotify. The conjuncts: the loop
processes the uuid list in order and a per-id failure in a block never
prevents the later block from being processed; a fetch failure records the
error and continues; a send failure records the error (after consuming a
fresh id) and continues; the returned result is the aggregated error naming
the error-map size exactly when the map is non-empty; and in a failure-free
run exactly one message per uuid is published, in list order, each carrying
a freshly minted correlation id, pairwise distinct and distinct from the
inbound id whenever the id supply is injective on the batch and avoids the
inbound id. -/
theorem forceNotify_batch_c1 (env : ForceEnv) (transactionID : String) :
    (∀ (us vs : List String) (st : LoopState),
      forceNotifyLoop env (us ++ vs) st = forceNotifyLoop env vs (forceNotifyLoop env us st)) ∧
    (∀ (u e : String) (vs : List String) (st : LoopState),
      env.getConcept u = .error e →
      forceNotifyLoop env (u :: vs) st =
        forceNotifyLoop env vs { st with errorMap := mapInsert st.errorMap u e }) ∧
    (∀ (u b e : String) (vs : List String) (st : LoopState),
      env.getConcept u = .ok b →
      env.sendMessage (mkMessage (env.newTransactionID st.tidCounter) b) = some e →
      forceNotifyLoop env (u :: vs) st =
        forceNotifyLoop env vs
          { st with
              tidCounter := st.tidCounter + 1
              errorMap := mapInsert st.errorMap u e }) ∧
    (∀ uuids : List String,
      (forceNotify env uuids transactionID).result =
        if (forceNotify env uuids transactionID).errorMap = [] then .ok ()
        else .error (.conceptIngestErrors (forceNotify env uuids transactionID).errorMap.length)) ∧
    (∀ (uuids : List String) (f : String → String),
      (∀ u ∈ uuids, env.getConcept u = .ok (f u)) →
      (∀ m, env.sendMessage m = none) →
      (forceNotify env uuids transactionID).published =
          (uuids.enumFrom 0).map (fun p => mkMessage (env.newTransactionID p.1) (f p.2)) ∧
      (forceNotify env uuids transactionID).errorMap = [] ∧
      (forceNotify env uuids transactionID).result = .ok () ∧
      (forceNotify env uuids transactionID).published.map msgTransactionID =
          (List.range uuids.length).map env.newTransactionID ∧
      ((∀ i, i < uuids.length → ∀ j, j < uuids.length → i ≠ j →
          env.newTransactionID i ≠ env.newTransactionID j) →
        ((forceNotify env uuids transactionID).published.map msgTransactionID).Pairwise (· ≠ ·)) ∧
      ((∀ i, i < uuids.length → env.newTransactionID i ≠ transactionID) →
        ∀ m ∈ (forceNotify env uuids transactionID).published,
          msgTransactionID m ≠ transactionID)) := by
  refine ⟨?_, ?_, ?_, ?_, ?_⟩
  · intro us vs st
    simp [forceNotifyLoop, List.foldl_append]
  · intro u e vs st hu
    have : forceNotifyLoop env (u :: vs) st = forceNotifyLoop env vs (forceNotifyStep env st u) := rfl
    rw [this]
    congr 1
    simp [forceNotifyStep, hu]
  · intro u b e vs st hu hsend
    have : forceNotifyLoop env (u :: vs) st = forceNotifyLoop env vs (forceNotifyStep env st u) := rfl
    rw [this]
    congr 1
    simp [forceNotifyStep, hu, hsend]
  · intro uuids
    unfold forceNotify
    by_cases hem : (forceNotifyLoop env uuids ⟨0, [], []⟩).errorMap = []
    · simp [hem]
    · simp [hem, List.isEmpty_iff]
  · intro uuids f hf hs
    have hloop := forceNotifyLoop_ok env f uuids ⟨0, [], []⟩ hf hs
    have hpub : (forceNotify env uuids transactionID).published =
        (uuids.enumFrom 0).map (fun p => mkMessage (env.newTransactionID p.1) (f p.2)) := by
      simp [forceNotify, hloop]
    have hem : (forceNotify env uuids transactionID).errorMap = [] := by
      simp [forceNotify, hloop]
    have hres : (forceNotify env uuids transactionID).result = .ok () := by
      simp [forceNotify, hloop]
    have htids : (forceNotify env uuids transactionID).published.map msgTransactionID =
        (List.range uuids.length).map env.newTransactionID := by
      rw [hpub, List.map_map]
      have hcomp : (msgTransactionID ∘ fun p : Nat × String =>
          mkMessage (env.newTransactionID p.1) (f p.2)) =
          (fun p : Nat × String => env.newTransactionID p.1) := by
        funext p
        rfl
      rw [hcomp]
      have : (fun p : Nat × String => env.newTransactionID p.1) =
          (env.newTransactionID ∘ Prod.fst) := rfl
      rw [this, ← List.map_map, List.enumFrom_map_fst, ← List.range_eq_range']
    refine ⟨hpub, hem, hres, htids, ?_, ?_⟩
    · intro hinj
      rw [htids]
      refine List.pairwise_map.mpr ?_
      refine (List.pairwise_lt_range uuids.length).imp_of_mem ?_
      intro a b ha hb hab
      exact hinj a (List.mem_range.mp ha) b (List.mem_range.mp hb) (Nat.ne_of_lt hab)
    · intro hfresh m hm
      have : msgTransactionID m ∈
          (forceNotify env uuids transactionID).published.map msgTransactionID :=
        List.mem_map_of_mem _ hm
      rw [htids] at this
      obtain ⟨i, hi, hieq⟩ := List.mem_map.mp this
      rw [← hieq]
      exact hfresh i (List.mem_range.mp hi)

/-- Environment for the claim C1 witness: every fetch succeeds, every send
succeeds, and fresh ids are distinct numbered strings. -/
def c1Env : ForceEnv :=
  ⟨fun u => .ok ("c-" ++ u), fun _ => none, fun n => "tid-" ++ toString n⟩

/-- Witness for claim C1: a failure-free two-element batch publishes exactly
two messages in order with distinct fresh ids, none equal to the inbound
id, and succeeds. -/
theorem forceNotify_batch_c1_witness :
    (∀ u ∈ (["u1", "u2"] : List String), c1Env.getConcept u = .ok ("c-" ++ u)) ∧
    (∀ m, c1Env.sendMessage m = none) ∧
    (∀ i, i < (["u1", "u2"] : List String).length →
      ∀ j, j < (["u1", "u2"] : List String).length → i ≠ j →
      c1Env.newTransactionID i ≠ c1Env.newTransactionID j) ∧
    (∀ i, i < (["u1", "u2"] : List String).length → c1Env.newTransactionID i ≠ "in-tid") ∧
    (forceNotify c1Env ["u1", "u2"] "in-tid").published =
      ((["u1", "u2"] : List String).enumFrom 0).map
        (fun p => mkMessage (c1Env.newTransactionID p.1) ("c-" ++ p.2)) ∧
    (forceNotify c1Env ["u1", "u2"] "in-tid").result = .ok () ∧
    ((forceNotify c1Env ["u1", "u2"] "in-tid").published.map msgTransactionID).Pairwise (· ≠ ·) ∧
    (∀ m ∈ (forceNotify c1Env ["u1", "u2"] "in-tid").published,
      msgTransactionID m ≠ "in-tid") := by
  have h := (forceNotify_batch_c1 c1Env "in-tid").2.2.2.2 ["u1", "u2"]
    (fun u => "c-" ++ u) (by decide) (fun _ => rfl)
  exact ⟨by decide, fun _ => rfl, by decide, by decide, h.1, h.2.2.1,
    h.2.2.2.2.1 (by decide), h.2.2.2.2.2 (by decide)⟩

/-- Environment for the claim C5 theorems. -/
def c5Env : ForceEnv :=
  ⟨fun _ => .ok "concept-body", fun _ => none, fun n => "tid-" ++ toString n⟩

/-- Counterexample to claim C5 as stated: when the first changed-concept
query returns the empty list, Notify does not fail — the code retries the
query, and when the retry returns a non-empty list it publishes and
succeeds. -/
theorem notify_empty_first_list_c5_counterexample :
    (notify c5Env (.ok []) (.ok ["u1"]) 0 "t1").result = .ok () ∧
    (notify c5Env (.ok []) (.ok ["u1"]) 0 "t1").published =
      [mkMessage "tid-0" "concept-body"] := by
  decide

/-- Claim C5 as amended: Notify fails with the distinct no-changed-concepts
error (carrying the since value and the inbound transaction id) and
publishes nothing only when both the first query and the one retried query
return the empty list; a query error is wrapped and propagated with nothing
published; and whichever of the two queries first returns a non-empty list
has exactly that list delegated to ForceNotify together with the inbound
transaction id. -/
theorem notify_retry_c5 (env : ForceEnv) (lastChange : Int) (transactionID : String) :
    (∀ (e : String) (r2 : Except String (List String)),
      notify env (.error e) r2 lastChange transactionID =
        ⟨[], [], .error (.listFetchFailed e)⟩) ∧
    (∀ e : String,
      notify env (.ok []) (.error e) lastChange transactionID =
        ⟨[], [], .error (.listRetryFetchFailed e)⟩) ∧
    (notify env (.ok []) (.ok []) lastChange transactionID =
      ⟨[], [], .error (.noChangedConcepts lastChange transactionID)⟩) ∧
    (∀ (l1 : List String) (r2 : Except String (List String)), l1 ≠ [] →
      notify env (.ok l1) r2 lastChange transactionID = forceNotify env l1 transactionID) ∧
    (∀ l2 : List String, l2 ≠ [] →
      notify env (.ok []) (.ok l2) lastChange transactionID =
        forceNotify env l2 transactionID) := by
  refine ⟨fun e r2 => rfl, fun e => rfl, rfl, ?_, ?_⟩
  · intro l1 r2 h
    unfold notify
    simp [List.isEmpty_iff, h]
  · intro l2 h
    unfold notify
    simp [List.isEmpty_iff, h]

/-- Witness for the amended claim C5: with a non-empty first list Notify
delegates to ForceNotify; with two empty lists it fails with the
no-changed-concepts error carrying since and the transaction id. -/
theorem notify_retry_c5_witness :
    ((["w1"] : List String) ≠ [] ∧
      notify c5Env (.ok ["w1"]) (.ok []) 7 "t2" = forceNotify c5Env ["w1"] "t2") ∧
    notify c5Env (.ok []) (.ok []) 7 "t2" =
      ⟨[], [], .error (.noChangedConcepts 7 "t2")⟩ :=
  ⟨⟨by decide, (notify_retry_c5 c5Env 7 "t2").2.2.2.1 ["w1"] (.ok []) (by decide)⟩,
    (notify_retry_c5 c5Env 7 "t2").2.2.1⟩

/-! ## HTTP request surface (notifier/handlers.go) -/

/-- An HTTP response as the handlers produce it: status code, content type
and body. -/
structure HttpResponse where
  status : Nat
  contentType : String
  body : String
  deriving Repr, DecidableEq

/-- writeJSONResponseMessage with no error attached. -/
def writeJSONResponseMessage (status : Nat) (msg : String) : HttpResponse :=
  ⟨status, "application/json", "\x7b\"message\": \"" ++ msg ++ "\"\x7d"⟩

/-- writeJSONResponseMessage with an error attached. -/
def writeJSONResponseMessageErr (status : Nat) (msg err : String) : HttpResponse :=
  ⟨status, "application/json",
    "\x7b\"message\": \"" ++ msg ++ "\", \"error\": \"" ++ err ++ "\"\x7d"⟩

/-- HandleForceNotify from notifier/handlers.go. The JSON decoding of the
request body is summarized by its outcome: a decode error, a payload whose
uuids field is missing or null (none), or the decoded uuid list. Returns
the response and the messages published by the ForceNotify call, if any. -/
def handleForceNotify (env : ForceEnv) (decodedBody : Except String (Option (List String)))
    (transactionID : String) : HttpResponse × List FTMessage :=
  match decodedBody with
  | .error e => (writeJSONResponseMessageErr 400 "There was an error decoding the payload" e, [])
  | .ok none => (writeJSONResponseMessage 400 "No \x27uuids\x27 parameter provided", [])
  | .ok (some uuids) =>
    let out := forceNotify env uuids transactionID
    match out.result with
    | .error _ =>
      (writeJSONResponseMessage 500 "There was an error completing the force notify", out.published)
    | .ok _ => (⟨200, "text/plain", "Concept notification completed"⟩, out.published)

/-- Claim C9: a present but empty uuids array is accepted — ForceNotify runs
over the empty list, publishes nothing, succeeds, and the handler answers
200 with the completion message; a missing or null uuids field answers 400;
and no decoded uuid list, empty or not, ever produces a 400. -/
theorem handleForceNotify_empty_uuids_c9 (env : ForceEnv) (transactionID : String) :
    handleForceNotify env (.ok (some [])) transactionID =
      (⟨200, "text/plain", "Concept notification completed"⟩, []) ∧
    (forceNotify env [] transactionID).published = [] ∧
    (forceNotify env [] transactionID).result = .ok () ∧
    handleForceNotify env (.ok none) transactionID =
      (writeJSONResponseMessage 400 "No \x27uuids\x27 parameter provided", []) ∧
    (∀ uuids : List String,
      (handleForceNotify env (.ok (some uuids)) transactionID).1.status ≠ 400) := by
  refine ⟨rfl, rfl, rfl, rfl, ?_⟩
  intro uuids
  unfold handleForceNotify
  cases hres : (forceNotify env uuids transactionID).result with
  | error e => simp [hres, writeJSONResponseMessage]
  | ok u => simp [hres]

/-- Witness for claim C9 at a concrete environment. -/
theorem handleForceNotify_empty_uuids_c9_witness :
    (handleForceNotify c1Env (.ok (some [])) "t").1.status = 200 ∧
    (handleForceNotify c1Env (.ok (some ["u1"])) "t").1.status ≠ 400 := by
  refine ⟨?_, (handleForceNotify_empty_uuids_c9 c1Env "t").2.2.2.2 ["u1"]⟩
  rw [(handleForceNotify_empty_uuids_c9 c1Env "t").1]

/-! ## GetConcept NotFound discrimination (smartlogic/client.go and
notifier/handlers.go) -/

/-- Errors surfaced by the Smartlogic client GetConcept call as the handler
distinguishes them: the distinct concept-does-not-exist error (the package
level ErrorConceptDoesNotExist value) or any other error. -/
inductive SLError where
  | conceptDoesNotExist
  | other (msg : String)
  deriving Repr, DecidableEq

/-- The string carried by an SLError, used in the error field of JSON error
responses. The concept-does-not-exist message follows the spec wording. -/
def slErrorMessage : SLError → String
  | .conceptDoesNotExist => "concept does not exist"
  | .other msg => msg

/-- Modelled from the spec: the classification of a GetConcept response body
performed by the Smartlogic client. The concrete decoder of the well-known
concept-does-not-exist body shape is not present under src (only its caller
in notifier/handlers.go and the spec sentence describing it), so the shape
test is abstracted as a Boolean classifier argument; a body of that shape
must yield the distinct NotFound error, any other body is returned raw. -/
def getConceptClassify (notFoundShape : String → Bool) (body : String) : Except SLError String :=
  if notFoundShape body then .error .conceptDoesNotExist else .ok body

/-- HandleGetConcept from notifier/handlers.go. The mux route variable and
the service call outcome determine the response: a missing uuid variable is
a 400; an error answers 404 exactly when it is the distinct
concept-does-not-exist error and 500 otherwise; success returns the raw
bytes as application/ld+json. -/
def handleGetConcept (uuidVar : Option String)
    (serviceResult : Except SLError String) : HttpResponse :=
  match uuidVar with
  | none => writeJSONResponseMessage 400 "UUID was not set."
  | some _ =>
    match serviceResult with
    | .error e =>
      let errStatus : Nat := if e = SLError.conceptDoesNotExist then 404 else 500
      writeJSONResponseMessageErr errStatus "There was an error retrieving the concept"
        (slErrorMessage e)
    | .ok concept => ⟨200, "application/ld+json", concept⟩

/-- Claim C4: a response body of the well-known concept-does-not-exist shape
produces the distinct NotFound error rather than the raw bytes, and through
the handler maps to exactly 404, while any other error maps to 500 and a
normal body is returned raw as application/ld+json with 200. -/
theorem getConcept_notFound_c4 (uuid : String) :
    (∀ (notFoundShape : String → Bool) (body : String),
      notFoundShape body = true →
      getConceptClassify notFoundShape body = .error .conceptDoesNotExist ∧
      handleGetConcept (some uuid) (getConceptClassify notFoundShape body) =
        writeJSONResponseMessageErr 404 "There was an error retrieving the concept"
          (slErrorMessage .conceptDoesNotExist)) ∧
    (∀ (notFoundShape : String → Bool) (body : String),
      notFoundShape body = false →
      getConceptClassify notFoundShape body = .ok body ∧
      handleGetConcept (some uuid) (getConceptClassify notFoundShape body) =
        ⟨200, "application/ld+json", body⟩) ∧
    (handleGetConcept (some uuid) (.error .conceptDoesNotExist)).status = 404 ∧
    (∀ e : SLError, e ≠ .conceptDoesNotExist →
      (handleGetConcept (some uuid) (.error e)).status = 500) := by
  refine ⟨?_, ?_, rfl, ?_⟩
  · intro shape body hshape
    have hc : getConceptClassify shape body = .error .conceptDoesNotExist := by
      simp [getConceptClassify, hshape]
    exact ⟨hc, by rw [hc]; rfl⟩
  · intro shape body hshape
    have hc : getConceptClassify shape body = .ok body := by
      simp [getConceptClassify, hshape]
    exact ⟨hc, by rw [hc]; rfl⟩
  · intro e he
    simp [handleGetConcept, writeJSONResponseMessageErr, he]

/-- Witness for claim C4 with a concrete shape classifier and bodies. -/
theorem getConcept_notFound_c4_witness :
    ((fun b : String => b == "missing") "missing" = true ∧
      getConceptClassify (fun b => b == "missing") "missing" = .error .conceptDoesNotExist ∧
      handleGetConcept (some "id-1") (getConceptClassify (fun b => b == "missing") "missing") =
        writeJSONResponseMessageErr 404 "There was an error retrieving the concept"
          (slErrorMessage .conceptDoesNotExist)) ∧
    ((fun b : String => b == "missing") "concept-bytes" = false ∧
      getConceptClassify (fun b => b == "missing") "concept-bytes" = .ok "concept-bytes" ∧
      handleGetConcept (some "id-1")
          (getConceptClassify (fun b => b == "missing") "concept-bytes") =
        ⟨200, "application/ld+json", "concept-bytes"⟩) ∧
    (SLError.other "boom" ≠ .conceptDoesNotExist ∧
      (handleGetConcept (some "id-1") (.error (.other "boom"))).status = 500) := by
  refine ⟨⟨by decide, ?_⟩, ⟨by decide, ?_⟩, ⟨by decide, ?_⟩⟩
  · exact ⟨((getConcept_notFound_c4 "id-1").1 (fun b => b == "missing") "missing" (by decide)).1,
      ((getConcept_notFound_c4 "id-1").1 (fun b => b == "missing") "missing" (by decide)).2⟩
  · exact ⟨((getConcept_notFound_c4 "id-1").2.1 (fun b => b == "missing") "concept-bytes"
        (by decide)).1,
      ((getConcept_notFound_c4 "id-1").2.1 (fun b => b == "missing") "concept-bytes"
        (by decide)).2⟩
  · exact (getConcept_notFound_c4 "id-1").2.2.2 (.other "boom") (by decide)

/-! ## Webhook validation: HandleNotify and validateLastChangeDate
(notifier/handlers.go) -/

/-- Numeric value of a decimal digit character. -/
def digitVal (c : Char) : Option Nat :=
  if c.isDigit then some (c.toNat - 48) else none

/-- Two fixed decimal digits. -/
def num2 (a b : Char) : Option Nat := do
  let x ← digitVal a
  let y ← digitVal b
  pure (10 * x + y)

/-- Four fixed decimal digits. -/
def num4 (a b c d : Char) : Option Nat := do
  let x ← digitVal a
  let y ← digitVal b
  let z ← digitVal c
  let w ← digitVal d
  pure (1000 * x + 100 * y + 10 * z + w)

/-- Gregorian leap year rule, as the Go time package applies it. -/
def isLeapYear (y : Nat) : Bool := y % 4 == 0 && (y % 100 != 0 || y % 400 == 0)

/-- Days in a month of a given year. -/
def daysInMonth (y m : Nat) : Nat :=
  if m = 2 then (if isLeapYear y then 29 else 28)
  else if m = 4 ∨ m = 6 ∨ m = 9 ∨ m = 11 then 30
  else 31

/-- Days between the civil date and the Unix epoch (the standard civil
calendar algorithm over truncating integer division). -/
def daysFromCivil (y m d : Nat) : Int :=
  let yi : Int := if m ≤ 2 then (y : Int) - 1 else (y : Int)
  let era : Int := (if 0 ≤ yi then yi else yi - 399) / 400
  let yoe : Int := yi - era * 400
  let mp : Int := ((m : Int) + 9) % 12
  let doy : Int := (153 * mp + 2) / 5 + (d : Int) - 1
  let doe : Int := yoe * 365 + yoe / 4 - yoe / 100 + doy
  era * 146097 + doe - 719468

/-- time.Parse for the fixed layout 2006-01-02T15:04:05Z: exactly twenty
characters, digits and separators at fixed positions, calendar-valid field
ranges; the result is the UTC instant in nanoseconds. -/
def parseTimeRFC (s : List Char) : Option Int :=
  match s with
  | [y1, y2, y3, y4, c1, mo1, mo2, c2, d1, d2, c3, h1, h2, c4, mi1, mi2, c5, s1, s2, c6] =>
    if c1 = '-' ∧ c2 = '-' ∧ c3 = 'T' ∧ c4 = ':' ∧ c5 = ':' ∧ c6 = 'Z' then
      match num4 y1 y2 y3 y4, num2 mo1 mo2, num2 d1 d2, num2 h1 h2, num2 mi1 mi2, num2 s1 s2 with
      | some y, some mo, some d, some h, some mi, some ss =>
        if 1 ≤ mo ∧ mo ≤ 12 ∧ 1 ≤ d ∧ d ≤ daysInMonth y mo ∧ h ≤ 23 ∧ mi ≤ 59 ∧ ss ≤ 59 then
          some ((daysFromCivil y mo d * 86400 + (h : Int) * 3600 + (mi : Int) * 60 + (ss : Int))
            * 1000000000)
        else none
      | _, _, _, _, _, _ => none
    else none
  | _ => none

/-- The TimeFormat constant of notifier/handlers.go. -/
def timeFormat : String := "2006-01-02T15:04:05Z"

/-- LastChangeLimit = 168 hours, in nanoseconds. -/
def lastChangeLimit : Int := 168 * 3600 * 1000000000

/-- validateLastChangeDate from notifier/handlers.go: parse the date with the
fixed format, subtract the 10 millisecond wobble, and reject adjusted times
more than LastChangeLimit in the past of now. -/
def validateLastChangeDate (now : Int) (change : String) : Except String Int :=
  match parseTimeRFC change.data with
  | none => .error ("Date is not in the format " ++ timeFormat)
  | some t =>
    let lastChange := t - 10 * 1000000
    if now - lastChange > lastChangeLimit then
      .error "Last change date should be time point in the last 168 hours"
    else .ok lastChange

/-- With a parseable date, validateLastChangeDate rejects an adjusted time
beyond the horizon with the horizon message. -/
lemma validateLastChangeDate_horizon (now : Int) (change : String) (t : Int)
    (hparse : parseTimeRFC change.data = some t)
    (hold : now - (t - 10 * 1000000) > lastChangeLimit) :
    validateLastChangeDate now change =
      .error "Last change date should be time point in the last 168 hours" := by
  unfold validateLastChangeDate
  rw [hparse]
  exact if_pos hold

/-- With a parseable date within the horizon, validateLastChangeDate returns
the parsed time minus the 10 millisecond wobble. -/
lemma validateLastChangeDate_ok (now : Int) (change : String) (t : Int)
    (hparse : parseTimeRFC change.data = some t)
    (hnew : ¬ now - (t - 10 * 1000000) > lastChangeLimit) :
    validateLastChangeDate now change = .ok (t - 10 * 1000000) := by
  unfold validateLastChangeDate
  rw [hparse]
  exact if_neg hnew

/-- The missing-parameter names accumulated by HandleNotify, in source
order. A parameter equal to the empty string is what the Go url.Values.Get
call reports for an absent parameter. -/
def notSetList (modifiedGraphId affectedGraphId lastChangeDate : String) : List String :=
  (if modifiedGraphId = "" then ["modifiedGraphId"] else []) ++
  (if affectedGraphId = "" then ["affectedGraphId"] else []) ++
  (if lastChangeDate = "" then ["lastChangeDate"] else [])

/-- HandleNotify from notifier/handlers.go, given the three query parameters,
the inbound transaction id header and the current clock. Returns the
response and the notification request enqueued into the coalescer, if any. -/
def handleNotify (now : Int)
    (modifiedGraphId affectedGraphId lastChangeDate transactionID : String) :
    HttpResponse × Option NotificationRequest :=
  if (notSetList modifiedGraphId affectedGraphId lastChangeDate).length > 0 then
    (writeJSONResponseMessage 400 ("Query parameters were not set: " ++
      String.intercalate ", " (notSetList modifiedGraphId affectedGraphId lastChangeDate)), none)
  else
    match validateLastChangeDate now lastChangeDate with
    | .error e => (writeJSONResponseMessage 400 e, none)
    | .ok t =>
      (writeJSONResponseMessage 200 "Concepts successfully ingested", some ⟨t, transactionID⟩)

/-- Claim C6: a webhook with missing parameters is answered 400 with exactly
the missing names, comma separated in source order (all three listed when
all are absent), and nothing is enqueued; with all parameters present the
date is parsed with the fixed format, 10 milliseconds are subtracted, an
adjusted time more than 168 hours in the past is answered 400 with the
horizon message and nothing enqueued, and otherwise the request is enqueued
with the adjusted time and 200 with the ingestion message is returned. -/
theorem handleNotify_validation_c6 (now : Int) (m a l tid : String) :
    ((m = "" ∨ a = "" ∨ l = "") →
      handleNotify now m a l tid =
        (writeJSONResponseMessage 400 ("Query parameters were not set: " ++
          String.intercalate ", " (notSetList m a l)), none)) ∧
    (handleNotify now "" "" "" tid =
      (writeJSONResponseMessage 400
        "Query parameters were not set: modifiedGraphId, affectedGraphId, lastChangeDate",
        none)) ∧
    (∀ t : Int, m ≠ "" → a ≠ "" → l ≠ "" →
      parseTimeRFC l.data = some t →
      (now - (t - 10 * 1000000) > lastChangeLimit →
        handleNotify now m a l tid =
          (writeJSONResponseMessage 400
            "Last change date should be time point in the last 168 hours", none)) ∧
      (¬ now - (t - 10 * 1000000) > lastChangeLimit →
        handleNotify now m a l tid =
          (writeJSONResponseMessage 200 "Concepts successfully ingested",
            some ⟨t - 10 * 1000000, tid⟩))) := by
  refine ⟨?_, rfl, ?_⟩
  · intro h
    have hlen : (notSetList m a l).length > 0 := by
      rcases h with h | h | h <;> simp [notSetList, h]
    unfold handleNotify
    simp [hlen]
  · intro t hm ha hl hparse
    have hns : (notSetList m a l).length = 0 := by
      simp [notSetList, hm, ha, hl]
    constructor
    · intro hold
      unfold handleNotify
      rw [hns, validateLastChangeDate_horizon now l t hparse hold]
      rfl
    · intro hnew
      unfold handleNotify
      rw [hns, validateLastChangeDate_ok now l t hparse hnew]
      rfl

/-- Witness for claim C6: the all-absent webhook lists the three names; a
valid date within the horizon is enqueued adjusted by 10 ms; the same date
seen from a clock one nanosecond past the horizon is rejected. -/
theorem handleNotify_validation_c6_witness :
    (parseTimeRFC ("2024-06-01T12:00:04Z".data) = some 1717243204000000000 ∧
      handleNotify 1717243204000000000 "g1" "g2" "2024-06-01T12:00:04Z" "tid-x" =
        (writeJSONResponseMessage 200 "Concepts successfully ingested",
          some ⟨1717243204000000000 - 10 * 1000000, "tid-x"⟩)) ∧
    (handleNotify (1717243204000000000 - 10 * 1000000 + lastChangeLimit + 1)
        "g1" "g2" "2024-06-01T12:00:04Z" "tid-x" =
      (writeJSONResponseMessage 400
        "Last change date should be time point in the last 168 hours", none)) ∧
    handleNotify 0 "" "" "" "tid-x" =
      (writeJSONResponseMessage 400
        "Query parameters were not set: modifiedGraphId, affectedGraphId, lastChangeDate",
        none) := by
  refine ⟨⟨by decide, ?_⟩, ?_, (handleNotify_validation_c6 0 "" "" "" "tid-x").2.1⟩
  · exact ((handleNotify_validation_c6 1717243204000000000 "g1" "g2" "2024-06-01T12:00:04Z"
      "tid-x").2.2 1717243204000000000 (by decide) (by decide) (by decide) (by decide)).2
      (by decide)
  · exact ((handleNotify_validation_c6 (1717243204000000000 - 10 * 1000000 + lastChangeLimit + 1)
      "g1" "g2" "2024-06-01T12:00:04Z" "tid-x").2.2 1717243204000000000
      (by decide) (by decide) (by decide) (by decide)).1 (by decide)

/-! ## URI to UUID extraction and the changed-concept list
(smartlogic/client.go) -/

/-- strings.HasPrefix over character lists. -/
def isPref : List Char → List Char → Bool
  | [], _ => true
  | _ :: _, [] => false
  | a :: as, b :: bs => a == b && isPref as bs

/-- strings.TrimPrefix over character lists. -/
def trimPref (p l : List Char) : List Char :=
  if isPref p l then l.drop p.length else l

/-- strings.Contains over character lists: some suffix of the text starts
with the pattern (the empty pattern is always contained). -/
def strContains : List Char → List Char → Bool
  | _, [] => true
  | [], _ => false
  | c :: srest, sub => isPref sub (c :: srest) || strContains srest sub

/-- thingURIPrefix from smartlogic/client.go. -/
def thingURIPref : List Char := "http://www.ft.com/thing/".data

/-- managedLocationURIPrefix from smartlogic/client.go. -/
def managedLocationURIPref : List Char := "http://www.ft.com/ontology/managedlocation/".data

/-- The substring whose presence marks a concept scheme URI. -/
def conceptSchemeMark : List Char := "ConceptScheme".data

/-- getUUIDfromValidURI from smartlogic/client.go: a URI containing
ConceptScheme never yields a uuid; otherwise the first matching recognized
prefix is stripped. -/
def getUUIDfromValidURI (uri : List Char) : Option (List Char) :=
  if strContains uri conceptSchemeMark then none
  else if isPref thingURIPref uri then some (trimPref thingURIPref uri)
  else if isPref managedLocationURIPref uri then some (trimPref managedLocationURIPref uri)
  else none

/-- Insertion into the changedURIs set: Go map insertion keyed on the URI,
keeping one copy per URI. -/
def insertURI (s : List (List Char)) (u : List Char) : List (List Char) :=
  if u ∈ s then s else s ++ [u]

/-- The deduplicated URI set accumulated over all changesets of the graph
response. -/
def collectURIs (changesets : List (List (List Char))) : List (List Char) :=
  changesets.foldl (fun s cs => cs.foldl insertURI s) []

/-- GetChangedConceptList from smartlogic/client.go, starting from the URIs
carried by the decoded changesets: dedupe the URIs, then keep the uuid of
each URI that extraction accepts, silently dropping the rest. -/
def getChangedConceptList (changesets : List (List (List Char))) : List (List Char) :=
  (collectURIs changesets).filterMap getUUIDfromValidURI

/-- Every list is a prefix of itself extended by anything. -/
lemma isPref_append_self : ∀ (p u : List Char), isPref p (p ++ u) = true := by
  intro p
  induction p with
  | nil => intro u; rfl
  | cons a as ih => intro u; simp [isPref, ih]

/-- Prefix test against an extension only looks at the first components when
the candidate is no longer than the base. -/
lemma isPref_append_of_le : ∀ (p q u : List Char), p.length ≤ q.length →
    isPref p (q ++ u) = isPref p q := by
  intro p
  induction p with
  | nil => intro q u _; rfl
  | cons a as ih =>
    intro q u h
    cases q with
    | nil => simp at h
    | cons b bs =>
      simp only [List.cons_append, isPref, List.append_eq]
      rw [ih bs u (by simpa using h)]

/-- A prefix of an append either sits inside the first part or extends it:
the candidate is a prefix of the left list, or it splits as the whole left
list followed by a prefix of the right list. -/
lemma isPref_append_cases : ∀ (p u sub : List Char), isPref sub (p ++ u) = true →
    isPref sub p = true ∨ ∃ s2, sub = p ++ s2 ∧ isPref s2 u = true := by
  intro p
  induction p with
  | nil =>
    intro u sub h
    exact .inr ⟨sub, rfl, h⟩
  | cons c p' ih =>
    intro u sub h
    cases sub with
    | nil => exact .inl rfl
    | cons a sub' =>
      rw [List.cons_append] at h
      simp only [isPref, Bool.and_eq_true, beq_iff_eq] at h
      obtain ⟨hac, h2⟩ := h
      rcases ih u sub' h2 with hl | ⟨s2, hseq, hs2⟩
      · exact .inl (by simp [isPref, hac, hl])
      · refine .inr ⟨s2, ?_, hs2⟩
        rw [hseq, hac]
        rfl

/-- Reflexivity of the prefix test. -/
lemma isPref_self (p : List Char) : isPref p p = true := by
  have := isPref_append_self p []
  rwa [List.append_nil] at this

/-- Unfolding of strContains on a non-empty text and pattern. -/
lemma strContains_cons (c : Char) (rest : List Char) (s0 : Char) (ss : List Char) :
    strContains (c :: rest) (s0 :: ss) =
      (isPref (s0 :: ss) (c :: rest) || strContains rest (s0 :: ss)) := rfl

/-- A non-empty pattern is never contained in the empty text. -/
lemma strContains_nil_text (s0 : Char) (ss : List Char) :
    strContains [] (s0 :: ss) = false := rfl

/-- Containment cannot appear in an append when the pattern occurs in
neither part and no non-empty suffix of the left part starts the pattern
(no occurrence can straddle the boundary). -/
lemma strContains_append_false :
    ∀ (p u sub : List Char), sub ≠ [] →
      strContains p sub = false →
      (∀ q, q ≠ [] → q <:+ p → isPref q sub = false) →
      strContains u sub = false →
      strContains (p ++ u) sub = false := by
  intro p
  induction p with
  | nil =>
    intro u sub _ _ _ hu
    simpa using hu
  | cons c p' ih =>
    intro u sub hsub hp hps hu
    obtain ⟨s0, ss, rfl⟩ := List.exists_cons_of_ne_nil hsub
    have hp2 : isPref (s0 :: ss) (c :: p') = false ∧ strContains p' (s0 :: ss) = false := by
      have := hp
      rw [strContains_cons] at this
      exact ⟨by rcases Bool.or_eq_false_iff.mp this with ⟨h1, _⟩; exact h1,
        by rcases Bool.or_eq_false_iff.mp this with ⟨_, h2⟩; exact h2⟩
    have hrest : strContains (p' ++ u) (s0 :: ss) = false := by
      refine ih u (s0 :: ss) (by simp) hp2.2 ?_ hu
      intro q hq hsuf
      exact hps q hq (hsuf.trans (List.suffix_cons c p'))
    have hhead : isPref (s0 :: ss) ((c :: p') ++ u) = false := by
      by_contra hcontra
      have htrue : isPref (s0 :: ss) ((c :: p') ++ u) = true := by
        cases h : isPref (s0 :: ss) ((c :: p') ++ u) with
        | false => exact absurd h hcontra
        | true => rfl
      rcases isPref_append_cases (c :: p') u (s0 :: ss) htrue with hl | ⟨s2, hseq, hs2⟩
      · rw [hp2.1] at hl
        exact Bool.false_ne_true hl
      · cases s2 with
        | nil =>
          rw [List.append_nil] at hseq
          have : isPref (s0 :: ss) (c :: p') = true := hseq ▸ isPref_self (s0 :: ss)
          rw [hp2.1] at this
          exact Bool.false_ne_true this
        | cons x xs =>
          have hqs : isPref (c :: p') (s0 :: ss) = false :=
            hps (c :: p') (by simp) (List.suffix_refl _)
          have : isPref (c :: p') (s0 :: ss) = true := by
            rw [hseq]
            exact isPref_append_self (c :: p') (x :: xs)
          rw [hqs] at this
          exact Bool.false_ne_true this
    rw [List.cons_append, strContains_cons, ← List.cons_append, hhead, hrest]
    rfl

/-- Membership in an insertion. -/
lemma mem_insertURI (s : List (List Char)) (u x : List Char) :
    x ∈ insertURI s u ↔ x ∈ s ∨ x = u := by
  unfold insertURI
  by_cases h : u ∈ s
  · simp only [h, if_true]
    constructor
    · exact fun hx => .inl hx
    · rintro (hx | rfl)
      · exact hx
      · exact h
  · simp [h]

/-- Insertion preserves the no-duplicates invariant. -/
lemma insertURI_nodup (s : List (List Char)) (u : List Char) (h : s.Nodup) :
    (insertURI s u).Nodup := by
  unfold insertURI
  by_cases hm : u ∈ s
  · simpa [hm] using h
  · simp [hm, List.nodup_append, h]

/-- Folding insertions over one changeset: membership. -/
lemma mem_foldl_insertURI :
    ∀ (cs : List (List Char)) (s : List (List Char)) (x : List Char),
      x ∈ cs.foldl insertURI s ↔ x ∈ s ∨ x ∈ cs := by
  intro cs
  induction cs with
  | nil => intro s x; simp
  | cons c cs ih =>
    intro s x
    rw [List.foldl_cons, ih, mem_insertURI]
    constructor
    · rintro ((hx | rfl) | hx)
      · exact .inl hx
      · exact .inr (by simp)
      · exact .inr (by simp [hx])
    · rintro (hx | hx)
      · exact .inl (.inl hx)
      · rcases List.mem_cons.mp hx with rfl | hx
        · exact .inl (.inr rfl)
        · exact .inr hx

/-- Folding insertions over one changeset: no duplicates. -/
lemma nodup_foldl_insertURI :
    ∀ (cs : List (List Char)) (s : List (List Char)), s.Nodup →
      (cs.foldl insertURI s).Nodup := by
  intro cs
  induction cs with
  | nil => intro s h; simpa using h
  | cons c cs ih =>
    intro s h
    rw [List.foldl_cons]
    exact ih _ (insertURI_nodup s c h)

/-- The collected URI set over all changesets: membership. -/
lemma mem_collectURIs_aux :
    ∀ (css : List (List (List Char))) (s : List (List Char)) (x : List Char),
      x ∈ css.foldl (fun s cs => cs.foldl insertURI s) s ↔ x ∈ s ∨ ∃ cs ∈ css, x ∈ cs := by
  intro css
  induction css with
  | nil => intro s x; simp
  | cons cs css ih =>
    intro s x
    rw [List.foldl_cons, ih, mem_foldl_insertURI]
    constructor
    · rintro ((hx | hx) | ⟨cs2, hcs2, hx⟩)
      · exact .inl hx
      · exact .inr ⟨cs, by simp, hx⟩
      · exact .inr ⟨cs2, by simp [hcs2], hx⟩
    · rintro (hx | ⟨cs2, hcs2, hx⟩)
      · exact .inl (.inl hx)
      · rcases List.mem_cons.mp hcs2 with rfl | hcs2
        · exact .inl (.inr hx)
        · exact .inr ⟨cs2, hcs2, hx⟩

/-- The collected URI set over all changesets: no duplicates. -/
lemma nodup_collectURIs_aux :
    ∀ (css : List (List (List Char))) (s : List (List Char)), s.Nodup →
      (css.foldl (fun s cs => cs.foldl insertURI s) s).Nodup := by
  intro css
  induction css with
  | nil => intro s h; simpa using h
  | cons cs css ih =>
    intro s h
    rw [List.foldl_cons]
    exact ih _ (nodup_foldl_insertURI cs s h)

/-- A URI formed from a recognized prefix and a uuid free of the
ConceptScheme substring is itself free of it: the prefixes do not contain
it, and no occurrence can straddle the boundary because every non-empty
suffix of either prefix ends in a character that ConceptScheme lacks. -/
lemma strContains_prefix_append (p u : List Char)
    (hp : strContains p conceptSchemeMark = false)
    (hps : ∀ q ∈ p.tails, q = [] ∨ isPref q conceptSchemeMark = false)
    (hu : strContains u conceptSchemeMark = false) :
    strContains (p ++ u) conceptSchemeMark = false := by
  refine strContains_append_false p u conceptSchemeMark (by decide) hp ?_ hu
  intro q hq hsuf
  rcases hps q ((List.mem_tails q p).mpr hsuf) with h | h
  · exact absurd h hq
  · exact h

/-- Counterexample to claim C7 as stated: with the uuid string
ConceptScheme itself, extraction from the thing-prefixed URI fails instead
of returning the uuid. -/
theorem getUUIDfromValidURI_c7_counterexample :
    getUUIDfromValidURI (thingURIPref ++ ("ConceptScheme".data)) ≠
      some ("ConceptScheme".data) := by
  decide

/-- Claim C7 as amended: for every uuid free of the ConceptScheme substring,
extraction inverts both recognized prefixes; any URI containing
ConceptScheme and any URI with neither recognized prefix is rejected; and
GetChangedConceptList dedupes the upstream URIs (the collected set has no
duplicates and exactly the URIs of the response) and keeps exactly the
extractable ones. -/
theorem getUUIDfromValidURI_roundtrip_c7 :
    (∀ u : List Char, strContains u conceptSchemeMark = false →
      getUUIDfromValidURI (thingURIPref ++ u) = some u ∧
      getUUIDfromValidURI (managedLocationURIPref ++ u) = some u) ∧
    (∀ uri : List Char, strContains uri conceptSchemeMark = true →
      getUUIDfromValidURI uri = none) ∧
    (∀ uri : List Char, isPref thingURIPref uri = false →
      isPref managedLocationURIPref uri = false →
      getUUIDfromValidURI uri = none) ∧
    (∀ css : List (List (List Char)),
      (collectURIs css).Nodup ∧
      (∀ x, x ∈ collectURIs css ↔ x ∈ css.flatten) ∧
      getChangedConceptList css = (collectURIs css).filterMap getUUIDfromValidURI ∧
      (∀ x, x ∈ getChangedConceptList css ↔
        ∃ uri, uri ∈ css.flatten ∧ getUUIDfromValidURI uri = some x)) := by
  refine ⟨?_, ?_, ?_, ?_⟩
  · intro u hu
    constructor
    · have hcs : strContains (thingURIPref ++ u) conceptSchemeMark = false :=
        strContains_prefix_append thingURIPref u (by decide) (by decide) hu
      simp [getUUIDfromValidURI, hcs, isPref_append_self, trimPref, List.drop_left]
    · have hcs : strContains (managedLocationURIPref ++ u) conceptSchemeMark = false :=
        strContains_prefix_append managedLocationURIPref u (by decide) (by decide) hu
      have hnotThing : isPref thingURIPref (managedLocationURIPref ++ u) = false := by
        rw [isPref_append_of_le thingURIPref managedLocationURIPref u (by decide)]
        decide
      simp [getUUIDfromValidURI, hcs, hnotThing, isPref_append_self, trimPref, List.drop_left]
  · intro uri huri
    simp [getUUIDfromValidURI, huri]
  · intro uri h1 h2
    by_cases hcs : strContains uri conceptSchemeMark = true
    · simp [getUUIDfromValidURI, hcs]
    · simp [getUUIDfromValidURI, hcs, h1, h2]
  · intro css
    have hnodup : (collectURIs css).Nodup :=
      nodup_collectURIs_aux css [] List.nodup_nil
    have hmem : ∀ x, x ∈ collectURIs css ↔ x ∈ css.flatten := by
      intro x
      rw [collectURIs, mem_collectURIs_aux css [] x, List.mem_flatten]
      simp
    refine ⟨hnodup, hmem, rfl, ?_⟩
    intro x
    rw [getChangedConceptList, List.mem_filterMap]
    constructor
    · rintro ⟨uri, huri, hex⟩
      exact ⟨uri, (hmem uri).mp huri, hex⟩
    · rintro ⟨uri, huri, hex⟩
      exact ⟨uri, (hmem uri).mpr huri, hex⟩

/-- Witness for the amended claim C7: a plain uuid round-trips through both
prefixes, and a two-changeset response with a duplicated URI, a scheme URI
and a foreign URI yields exactly the one uuid. -/
theorem getUUIDfromValidURI_roundtrip_c7_witness :
    strContains ("abc-123".data) conceptSchemeMark = false ∧
    getUUIDfromValidURI (thingURIPref ++ "abc-123".data) = some ("abc-123".data) ∧
    getUUIDfromValidURI (managedLocationURIPref ++ "abc-123".data) = some ("abc-123".data) ∧
    getChangedConceptList
        [[thingURIPref ++ "abc-123".data, thingURIPref ++ "abc-123".data],
          [thingURIPref ++ "ConceptScheme/s".data, "http://other/x".data]] =
      ["abc-123".data] := by
  refine ⟨by decide, ?_, ?_, by decide⟩
  · exact (getUUIDfromValidURI_roundtrip_c7.1 ("abc-123".data) (by decide)).1
  · exact (getUUIDfromValidURI_roundtrip_c7.1 ("abc-123".data) (by decide)).2

/-! ## Kafka FT message framing: Build and its inverse (kafka/ftmsg.go) -/

/-- One header line of the envelope: name, colon-space, value, newline. -/
def headerLine (kv : List Char × List Char) : List Char :=
  kv.1 ++ ':' :: ' ' :: kv.2 ++ ['\n']

/-- FTMessage.Build from kafka/ftmsg.go: the magic line, one header line per
entry in iteration order (the headers mapping is modelled as the list of its
entries), a blank line, then the body verbatim, written left to right into
one buffer. -/
def buildFT (headers : List (List Char × List Char)) (body : List Char) : List Char :=
  (headers.foldl (fun buf kv => buf ++ headerLine kv) ("FTMSG/1.0\n".data)) ++ '\n' :: body

/-- The buffer fold appended to a prefix is the prefix followed by the
concatenated header lines. -/
lemma foldl_headerLine (headers : List (List Char × List Char)) :
    ∀ buf : List Char,
      headers.foldl (fun buf kv => buf ++ headerLine kv) buf =
        buf ++ (headers.map headerLine).flatten := by
  induction headers with
  | nil => intro buf; simp
  | cons kv hs ih =>
    intro buf
    rw [List.foldl_cons, ih]
    simp [List.append_assoc]

/-- Build produces exactly the magic line, the header lines in order, a
blank line, and the body. -/
lemma buildFT_structure (headers : List (List Char × List Char)) (body : List Char) :
    buildFT headers body =
      "FTMSG/1.0\n".data ++ ((headers.map headerLine).flatten ++ '\n' :: body) := by
  rw [buildFT, foldl_headerLine, List.append_assoc]

/-- Reads up to the first newline: the line without it and the remainder. -/
def takeLine : List Char → Option (List Char × List Char)
  | [] => none
  | c :: rest =>
    if c = '\n' then some ([], rest)
    else
      match takeLine rest with
      | none => none
      | some (l, r) => some (c :: l, r)

/-- Splits a header line at the first colon-space into name and value. -/
def splitHeaderNameValue : List Char → Option (List Char × List Char)
  | [] => none
  | c :: rest =>
    if c = ':' ∧ rest.head? = some ' ' then some ([], rest.tail)
    else
      match splitHeaderNameValue rest with
      | none => none
      | some (a, b) => some (c :: a, b)

/-- Whether a colon immediately followed by a space occurs in the list. -/
def hasColonSpace : List Char → Bool
  | [] => false
  | c :: rest => if c = ':' ∧ rest.head? = some ' ' then true else hasColonSpace rest

/-- Modelled from the spec: the envelope grammar read back. The repository
only builds envelopes (kafka/ftmsg.go has no inverse; downstream consumers
parse them), so the reader follows the spec framing: after the magic line,
header lines of the form name colon-space value up to a blank line, then the
body verbatim. Fuel bounds the recursion; one character is consumed per
line, so the length of the input suffices. -/
def parseHeaderBlock : Nat → List Char → Option (List (List Char × List Char) × List Char)
  | 0, _ => none
  | fuel + 1, s =>
    if s.head? = some '\n' then some ([], s.tail)
    else
      match takeLine s with
      | none => none
      | some (line, rest) =>
        match splitHeaderNameValue line with
        | none => none
        | some kv =>
          match parseHeaderBlock fuel rest with
          | none => none
          | some (hs, body) => some (kv :: hs, body)

/-- Modelled from the spec: the envelope reader, checking the magic line and
handing the remainder to the header block reader. -/
def parseFT (msg : List Char) : Option (List (List Char × List Char) × List Char) :=
  if isPref ("FTMSG/1.0\n".data) msg then
    parseHeaderBlock msg.length (msg.drop (("FTMSG/1.0\n".data).length))
  else none

/-- takeLine inverts appending a newline-free line before a newline. -/
lemma takeLine_append :
    ∀ (l r : List Char), '\n' ∉ l → takeLine (l ++ '\n' :: r) = some (l, r) := by
  intro l
  induction l with
  | nil =>
    intro r _
    simp [takeLine]
  | cons c l' ih =>
    intro r hl
    have hc : ¬ c = '\n' := fun h => hl (h ▸ List.mem_cons_self c l')
    rw [List.cons_append, takeLine]
    rw [if_neg hc, ih r (fun h => hl (List.mem_cons_of_mem c h))]

/-- splitHeaderNameValue inverts gluing a colon-space-free name to a value
with the colon-space delimiter. -/
lemma splitHeaderNameValue_append :
    ∀ (k v : List Char), hasColonSpace k = false →
      splitHeaderNameValue (k ++ ':' :: ' ' :: v) = some (k, v) := by
  intro k
  induction k with
  | nil =>
    intro v _
    simp [splitHeaderNameValue]
  | cons c k' ih =>
    intro v hk
    have hks : ¬ (c = ':' ∧ k'.head? = some ' ') ∧ hasColonSpace k' = false := by
      by_cases h : c = ':' ∧ k'.head? = some ' '
      · rw [hasColonSpace, if_pos h] at hk
        exact absurd hk (by decide)
      · rw [hasColonSpace, if_neg h] at hk
        exact ⟨h, hk⟩
    have hcond : ¬ (c = ':' ∧ (k' ++ ':' :: ' ' :: v).head? = some ' ') := by
      cases k' with
      | nil =>
        rintro ⟨_, hh⟩
        simp at hh
      | cons d k2 =>
        rintro ⟨hc, hh⟩
        simp at hh
        exact hks.1 ⟨hc, by rw [hh]; rfl⟩
    rw [List.cons_append, splitHeaderNameValue, if_neg hcond, ih v hks.2]

/-- The header block reader inverts the header lines of Build whenever the
names and values are newline-free and no name contains a colon-space. -/
lemma parseHeaderBlock_build :
    ∀ (headers : List (List Char × List Char)) (body : List Char) (fuel : Nat),
      (∀ kv ∈ headers, '\n' ∉ kv.1 ∧ '\n' ∉ kv.2 ∧ hasColonSpace kv.1 = false) →
      ((headers.map headerLine).flatten ++ '\n' :: body).length ≤ fuel →
      parseHeaderBlock fuel ((headers.map headerLine).flatten ++ '\n' :: body) =
        some (headers, body) := by
  intro headers
  induction headers with
  | nil =>
    intro body fuel _ hfuel
    cases fuel with
    | zero => simp at hfuel
    | succ fuel => simp [parseHeaderBlock]
  | cons kv hs ih =>
    intro body fuel hcond hfuel
    obtain ⟨hk, hv, hcs⟩ := hcond kv (by simp)
    have hshape : ((kv :: hs).map headerLine).flatten ++ '\n' :: body =
        (kv.1 ++ ':' :: ' ' :: kv.2) ++
          '\n' :: ((hs.map headerLine).flatten ++ '\n' :: body) := by
      simp [headerLine, List.append_assoc]
    have hline : '\n' ∉ (kv.1 ++ ':' :: ' ' :: kv.2) := by
      intro hmem
      rcases List.mem_append.mp hmem with h | h
      · exact hk h
      · rcases List.mem_cons.mp h with h | h
        · exact absurd h (by decide)
        · rcases List.mem_cons.mp h with h | h
          · exact absurd h (by decide)
          · exact hv h
    have hhead : ¬ ((kv.1 ++ ':' :: ' ' :: kv.2) ++
        '\n' :: ((hs.map headerLine).flatten ++ '\n' :: body)).head? = some '\n' := by
      cases hk1 : kv.1 with
      | nil => simp
      | cons c k' =>
        have hc : c ≠ '\n' := by
          intro h
          exact hk (by rw [hk1, h]; exact List.mem_cons_self _ _)
        simp [hc]
    rw [hshape] at hfuel ⊢
    cases fuel with
    | zero =>
      exfalso
      simp [List.length_append] at hfuel
    | succ fuel =>
      have hfuel2 : ((hs.map headerLine).flatten ++ '\n' :: body).length ≤ fuel := by
        simp only [List.length_append, List.length_cons] at hfuel ⊢
        omega
      rw [parseHeaderBlock, if_neg hhead,
        takeLine_append (kv.1 ++ ':' :: ' ' :: kv.2) _ hline]
      simp only [splitHeaderNameValue_append kv.1 kv.2 hcs,
        ih body fuel (fun kv2 hkv2 => hcond kv2 (List.mem_cons_of_mem _ hkv2)) hfuel2]

/-- Counterexample to claim C8 as stated: a header value containing a
newline breaks the framing, so parsing the built envelope does not return
the original headers and body. -/
theorem buildFT_roundtrip_c8_counterexample :
    parseFT (buildFT [("a".data, "x\ny".data)] ("b".data)) ≠
      some ([("a".data, "x\ny".data)], "b".data) := by
  decide

/-- Claim C8 as amended: Build produces the magic line, one name colon-space
value line per header entry in mapping order, a blank line, and the body
verbatim; and for headers whose names and values are newline-free and whose
names contain no colon-space, parsing the built envelope returns exactly the
original header list and the original body. -/
theorem buildFT_roundtrip_c8 :
    (∀ (headers : List (List Char × List Char)) (body : List Char),
      buildFT headers body =
        "FTMSG/1.0\n".data ++ ((headers.map headerLine).flatten ++ '\n' :: body)) ∧
    (∀ (headers : List (List Char × List Char)) (body : List Char),
      (∀ kv ∈ headers, '\n' ∉ kv.1 ∧ '\n' ∉ kv.2 ∧ hasColonSpace kv.1 = false) →
      parseFT (buildFT headers body) = some (headers, body)) := by
  refine ⟨buildFT_structure, ?_⟩
  intro headers body hcond
  rw [buildFT_structure]
  unfold parseFT
  rw [if_pos (isPref_append_self _ _), List.drop_left]
  refine parseHeaderBlock_build headers body _ hcond ?_
  simp only [List.length_append]
  omega

/-- Witness for the amended claim C8: two headers (one value even contains a
colon-space) and a body with an embedded newline survive the round trip. -/
theorem buildFT_roundtrip_c8_witness :
    (∀ kv ∈ ([("h1".data, "v1".data), ("h2".data, "v: 2".data)] :
        List (List Char × List Char)),
      '\n' ∉ kv.1 ∧ '\n' ∉ kv.2 ∧ hasColonSpace kv.1 = false) ∧
    parseFT (buildFT [("h1".data, "v1".data), ("h2".data, "v: 2".data)]
        ("line1\nline2".data)) =
      some ([("h1".data, "v1".data), ("h2".data, "v: 2".data)], "line1\nline2".data) :=
  ⟨by decide, buildFT_roundtrip_c8.2 _ _ (by decide)⟩

end SmartlogicNotifier
